import Mathlib

/-!
# AbyssGPT — verification of the scoring / routing / ranking core

A shallow embedding of the AbyssGPT repository's logic layer:

* `Scoring`     — `src/logic/scoring.py` (danger / resource / eco / combined
  scores and the `score_cell` wrapper);
* `Core`        — the placeholder scoring and the `RECOMMEND_ZONES` ranking
  path of `src/logic/core.py` (`handle_query`);
* `Pathfinding` — `src/logic/pathfinding.py` (grid graph construction and the
  Dijkstra-based `find_route`).

Python floats are modelled as exact rationals (`ℚ`); the `float("inf")`
sentinel used for invalid cells is modelled as `⊤` in `WithTop ℚ`.
Coordinates are integer pairs, as in the Python code, so that out-of-grid
neighbours such as `(-1, 0)` are representable.  Layer tables (pandas
DataFrames indexed by `(row, col)` in the source) are modelled as ordered
lists of coordinate-keyed records; a per-coordinate lookup corresponds to
filtering that list, preserving file order, exactly as both the
`AbyssData` indexes of `src/logic/data_loader.py` and the raw DataFrame
filters of `src/logic/core.py` do.
-/

/-- A grid coordinate `(row, col)`, the universal join key of all layers. -/
abbrev Coord : Type := ℤ × ℤ

/-- One record of the dense `cells.csv` layer.  Only `depth_m` is consulted
by the scoring code embedded here; `biome` and `temperature_c` feed only the
narrative text paths, which are out of scope. -/
structure Cell where
  depth_m : ℚ
  deriving DecidableEq

/-- One record of the sparse hazards layer (`severity`; the `type` label is
narrative-only). -/
structure Hazard where
  severity : ℚ
  deriving DecidableEq

/-- One record of the sparse currents layer. -/
structure Current where
  speed_mps : ℚ
  stability : ℚ
  deriving DecidableEq

/-- One record of the sparse corals layer. -/
structure Coral where
  coral_cover_pct : ℚ
  health_index : ℚ
  biodiversity_index : ℚ
  deriving DecidableEq

/-- One record of the sparse resources layer. -/
structure Resource where
  abundance : ℚ
  economic_value : ℚ
  purity : ℚ
  extraction_difficulty : ℚ
  environmental_impact : ℚ
  deriving DecidableEq

/-- One record of the sparse life layer (`density`, `threat_level`; the
species label is narrative-only). -/
structure Life where
  density : ℚ
  threat_level : ℚ
  deriving DecidableEq

/-- The layered dataset: the ordered rows of each CSV table, keyed by
coordinate.  Mirrors `AbyssData` of `src/logic/data_loader.py`, whose
`cell_index` maps a coordinate to its (unique, per the data-model invariant)
cell record and whose `_build_simple_index` maps a coordinate to the list of
that layer's records for it, in file order. -/
structure AbyssData where
  cellRows : List (Coord × Cell)
  hazardRows : List (Coord × Hazard)
  currentRows : List (Coord × Current)
  coralRows : List (Coord × Coral)
  resourceRows : List (Coord × Resource)
  lifeRows : List (Coord × Life)
  deriving DecidableEq

namespace AbyssData

/-- `AbyssData.get_cell`: the `cell_index` lookup, `None` when the
coordinate has no Cell record. -/
def get_cell (data : AbyssData) (row col : ℤ) : Option Cell :=
  (data.cellRows.find? (fun p => p.1 = (row, col))).map (·.2)

/-- `AbyssData.get_hazards`: all hazard records at `(row, col)`, in file
order ( `[]` when absent). -/
def get_hazards (data : AbyssData) (row col : ℤ) : List Hazard :=
  (data.hazardRows.filter (fun p => p.1 = (row, col))).map (·.2)

/-- `AbyssData.get_currents`. -/
def get_currents (data : AbyssData) (row col : ℤ) : List Current :=
  (data.currentRows.filter (fun p => p.1 = (row, col))).map (·.2)

/-- `AbyssData.get_corals`. -/
def get_corals (data : AbyssData) (row col : ℤ) : List Coral :=
  (data.coralRows.filter (fun p => p.1 = (row, col))).map (·.2)

/-- `AbyssData.get_resources`. -/
def get_resources (data : AbyssData) (row col : ℤ) : List Resource :=
  (data.resourceRows.filter (fun p => p.1 = (row, col))).map (·.2)

/-- `AbyssData.get_life`. -/
def get_life (data : AbyssData) (row col : ℤ) : List Life :=
  (data.lifeRows.filter (fun p => p.1 = (row, col))).map (·.2)

end AbyssData

/-- ASCII lowering of one character, the relevant fragment of Python's
`str.lower` for the mode strings handled by `combined_score` (mode strings
in this system are ASCII; on `[A-Z]` Python's `lower` adds 32 to the code
point and leaves every other ASCII character unchanged). -/
def lowerChar (c : Char) : Char :=
  if 65 ≤ c.toNat ∧ c.toNat ≤ 90 then Char.ofNat (c.toNat + 32) else c

/-- `mode.lower()` as called by `combined_score` in `src/logic/scoring.py`. -/
def pyLower (s : String) : String := String.mk (s.data.map lowerChar)

namespace Scoring

/-- `danger_score` of `src/logic/scoring.py`: depth term
`min(depth/7000, 1) * 0.25`, plus `severity * 0.55` for every hazard
record, plus — when at least one current record exists — speed and
instability terms computed from the **first** current record. -/
def danger_score (cell : Cell) (hazards : List Hazard) (currents : List Current) : ℚ :=
  let depth_norm : ℚ := min (cell.depth_m / 7000) 1.0
  let base : ℚ := depth_norm * 0.25
  let withHaz : ℚ := hazards.foldl (fun s hz => s + hz.severity * 0.55) base
  match currents with
  | [] => withHaz
  | c :: _ => withHaz + (c.speed_mps / 5) * 0.15 + (1 - c.stability) * 0.25

/-- `resource_score` of `src/logic/scoring.py`: `0` when no resource
records, otherwise the sum of `abundance*0.35 + economic_value*0.50 +
purity*0.15` over all records. -/
def resource_score (resources : List Resource) : ℚ :=
  match resources with
  | [] => 0.0
  | rs => rs.foldl
      (fun s r => s + (r.abundance * 0.35 + r.economic_value * 0.50 + r.purity * 0.15)) 0.0

/-- `eco_impact_score` of `src/logic/scoring.py`: coral, life and resource
contributions summed over every record of each layer. -/
def eco_impact_score (corals : List Coral) (life : List Life) (resources : List Resource) : ℚ :=
  let s1 : ℚ := corals.foldl (fun s c => s + (c.health_index + c.biodiversity_index) * 0.4) 0.0
  let s2 : ℚ := life.foldl (fun s sp => s + sp.density * sp.threat_level * 0.25) s1
  resources.foldl
    (fun s r => s + (r.environmental_impact * 0.30 + r.extraction_difficulty * 0.10)) s2

/-- `combined_score` of `src/logic/scoring.py`: lower-cases the mode string,
then dispatches on `mining` / `conservation` / `safe_route` / `fast_route`,
falling back to the `balanced` formula for every other string. -/
def combined_score (danger eco resource : ℚ) (mode : String) : ℚ :=
  let m := pyLower mode
  if m = "mining" then resource * 1.0 - 0.35 * danger - 0.55 * eco
  else if m = "conservation" then -(eco * 1.0) - 0.25 * danger
  else if m = "safe_route" then danger * 1.0 + 0.25 * eco
  else if m = "fast_route" then 0.0
  else resource - 0.25 * danger - 0.35 * eco

/-- `score_cell` of `src/logic/scoring.py`: `float("inf")` (here `⊤`) when
the coordinate has no Cell record, otherwise the mode-combined score of the
three base scores of that coordinate's layer records. -/
def score_cell (data : AbyssData) (row col : ℤ) (mode : String) : WithTop ℚ :=
  match data.get_cell row col with
  | none => ⊤
  | some cell =>
      let hazards := data.get_hazards row col
      let corals := data.get_corals row col
      let resources := data.get_resources row col
      let life := data.get_life row col
      let currents := data.get_currents row col
      ((combined_score (danger_score cell hazards currents)
          (eco_impact_score corals life resources)
          (resource_score resources) mode : ℚ) : WithTop ℚ)

end Scoring

namespace Core

/-!
The "simple scoring placeholders" of `src/logic/core.py` (the module's own
comment), used by the `RECOMMEND_ZONES` path of `handle_query`.  There a
cell is a DataFrame row carrying its own `row`/`col`, modelled as
`Coord × Cell`; the DataFrame filters `df[(df.row == r) & (df.col == c)]`
coincide with the coordinate lookups of `AbyssData`.
-/

/-- `danger_score` of `src/logic/core.py`: `0.6 * Σ severity +
0.3 * (1 - first current's stability) + 0.1 * depth/6000`. -/
def danger_score (cell : Coord × Cell) (data : AbyssData) : ℚ :=
  let hz := data.get_hazards cell.1.1 cell.1.2
  let hazard_severity : ℚ := (hz.map (·.severity)).sum
  let cur := data.get_currents cell.1.1 cell.1.2
  let instability : ℚ := match cur with | [] => 0.0 | c :: _ => 1 - c.stability
  let depth_factor : ℚ := cell.2.depth_m / 6000
  0.6 * hazard_severity + 0.3 * instability + 0.1 * depth_factor

/-- `resource_score` of `src/logic/core.py`: from the **first** resource
record, `economic_value * abundance - extraction_difficulty`; `0` if none. -/
def resource_score (cell : Coord × Cell) (data : AbyssData) : ℚ :=
  match data.get_resources cell.1.1 cell.1.2 with
  | [] => 0.0
  | r :: _ => r.economic_value * r.abundance - r.extraction_difficulty

/-- `eco_impact_score` of `src/logic/core.py`: `0.5 * coral_damage +
0.5 * extraction_impact`, each taken from the first record of its layer. -/
def eco_impact_score (cell : Coord × Cell) (data : AbyssData) : ℚ :=
  let coral_damage : ℚ :=
    match data.get_corals cell.1.1 cell.1.2 with
    | [] => 0.0
    | c :: _ => (c.coral_cover_pct / 100) * c.health_index
  let extraction_impact : ℚ :=
    match data.get_resources cell.1.1 cell.1.2 with
    | [] => 0.0
    | r :: _ => r.environmental_impact
  0.5 * coral_damage + 0.5 * extraction_impact

/-- The per-cell combined value computed inside the `RECOMMEND_ZONES` loop
of `handle_query`: `rs - 1.2*es - 0.5*ds`. -/
def recommend_cell_score (cell : Coord × Cell) (data : AbyssData) : ℚ :=
  resource_score cell data - 1.2 * eco_impact_score cell data - 0.5 * danger_score cell data

/-- The `scored` array of the `RECOMMEND_ZONES` path: one combined value per
row of the cells table, in row-iteration order. -/
def recommend_scores (data : AbyssData) : List ℚ :=
  data.cellRows.map (fun cell => recommend_cell_score cell data)

/-- Index comparison modelling `np.argsort` over a score list: ascending by
value, ties by original index.  NumPy's default kind leaves the relative
order of exactly equal values unspecified; ties-by-index (NumPy's
`kind="stable"`) is the canonical deterministic resolution. -/
def argsortLE (l : List ℚ) (i j : ℕ) : Prop :=
  l.getD i 0 < l.getD j 0 ∨ (l.getD i 0 = l.getD j 0 ∧ i ≤ j)

instance (l : List ℚ) : DecidableRel (argsortLE l) := fun i j => by
  unfold argsortLE; infer_instance

instance (l : List ℚ) : IsTotal ℕ (argsortLE l) where
  total i j := by
    unfold argsortLE
    rcases lt_trichotomy (l.getD i 0) (l.getD j 0) with h | h | h
    · exact Or.inl (Or.inl h)
    · rcases Nat.le_total i j with hij | hij
      · exact Or.inl (Or.inr ⟨h, hij⟩)
      · exact Or.inr (Or.inr ⟨h.symm, hij⟩)
    · exact Or.inr (Or.inl h)

instance (l : List ℚ) : IsTrans ℕ (argsortLE l) where
  trans i j k hij hjk := by
    unfold argsortLE at *
    rcases hij with h1 | ⟨h1, h1'⟩ <;> rcases hjk with h2 | ⟨h2, h2'⟩
    · exact Or.inl (h1.trans h2)
    · exact Or.inl (h2 ▸ h1)
    · exact Or.inl (h1 ▸ h2)
    · exact Or.inr ⟨h1.trans h2, h1'.trans h2'⟩

/-- `np.argsort(scored)`: the indices `0, …, n-1` sorted ascending by
score. -/
def argsort (l : List ℚ) : List ℕ :=
  List.insertionSort (argsortLE l) (List.range l.length)

/-- `top_idx = scored.argsort()[-5:][::-1]` of the `RECOMMEND_ZONES` path:
the last (up to) five indices of the ascending sort, reversed.  Python's
`a[-5:]` yields the whole list when it has fewer than five entries, as does
`drop (length - 5)` with truncated subtraction. -/
def recommend_top_idx (data : AbyssData) : List ℕ :=
  let idx := argsort (recommend_scores data)
  (idx.drop (idx.length - 5)).reverse

/-- The `highlights` list of the `RECOMMEND_ZONES` payload: for each index
of `top_idx`, the coordinate of that cells-table row zipped with its score
(the out-of-range default is never consulted, since `argsort` produces
indices below the table length). -/
def recommend_highlights (data : AbyssData) : List (Coord × ℚ) :=
  let scored := recommend_scores data
  (recommend_top_idx data).map
    (fun i => ((data.cellRows.getD i ((0, 0), ⟨0⟩)).1, scored.getD i 0))

end Core

namespace Pathfinding

/-- `DIRS` of `src/logic/pathfinding.py`: down, up, right, left. -/
def DIRS : List Coord := [(1, 0), (-1, 0), (0, 1), (0, -1)]

/-- `_neighbours`: the axis-aligned neighbours of `coord` that lie inside
`[0, max_row) × [0, max_col)`, in `DIRS` order. -/
def neighbours (coord : Coord) (max_row max_col : ℤ) : List Coord :=
  (DIRS.map (fun d => (coord.1 + d.1, coord.2 + d.2))).filter
    (fun p => 0 ≤ p.1 ∧ p.1 < max_row ∧ 0 ≤ p.2 ∧ p.2 < max_col)

/-- `_route_cost`: the cost of stepping **into** `coord` — `inf` (`⊤`) for a
coordinate without a Cell record, otherwise a base step cost of `1.0` plus
`score_cell(data, row, col, mode="safe_route")`.  The mode is the literal
string `"safe_route"` in the source, independent of any query mode. -/
def route_cost (coord : Coord) (data : AbyssData) : WithTop ℚ :=
  match data.get_cell coord.1 coord.2 with
  | none => ⊤
  | some _ => ((1.0 : ℚ) : WithTop ℚ) + Scoring.score_cell data coord.1 coord.2 "safe_route"

/-- `int(data.cells["row"].max()) + 1` (and likewise for columns): the
exclusive grid bounds used by `build_graph`.  Rows and columns are
non-negative in the data model, so the fold from `0` returns the column
maximum of a non-empty table. -/
def maxRowBound (data : AbyssData) : ℤ :=
  (data.cellRows.map (fun p => p.1.1)).foldl max 0 + 1

/-- Column analogue of `maxRowBound`. -/
def maxColBound (data : AbyssData) : ℤ :=
  (data.cellRows.map (fun p => p.1.2)).foldl max 0 + 1

/-- A directed weighted graph, as the `networkx.DiGraph` built by
`build_graph`: node list and edge list `(u, v, weight)` in insertion
order. -/
structure Graph where
  nodes : List Coord
  edges : List (Coord × Coord × WithTop ℚ)
  deriving DecidableEq

/-- `G.edges[u][v]["weight"]`: the weight of the first stored `(u, v)` edge,
`none` when the graph has no such edge. -/
def Graph.weight (g : Graph) (u v : Coord) : Option (WithTop ℚ) :=
  (g.edges.find? (fun e => e.1 = u ∧ e.2.1 = v)).map (·.2.2)

/-- `build_graph`: one node per key of `cell_index`; for every node, an
edge to each in-bounds neighbour that also has a Cell record, weighted by
`_route_cost` of the neighbour (the cell entered). -/
def build_graph (data : AbyssData) : Graph :=
  let max_row := maxRowBound data
  let max_col := maxColBound data
  let nodes := data.cellRows.map (·.1)
  let edges := nodes.foldr
    (fun coord acc =>
      (((neighbours coord max_row max_col).filter
          (fun nb => (data.get_cell nb.1 nb.2).isSome)).map
        (fun nb => (coord, nb, route_cost nb data))) ++ acc) []
  ⟨nodes, edges⟩

/-- `nx.path_weight(G, path, weight="weight")`: the sum of the stored edge
weights along consecutive pairs of `path` (`0` for paths without edges).  A
missing edge — a `KeyError` in networkx, never reached by `find_route` —
is totalized as `⊤`. -/
def path_weight (g : Graph) : List Coord → WithTop ℚ
  | [] => 0
  | [_] => 0
  | u :: v :: rest => (g.weight u v).getD ⊤ + path_weight g (v :: rest)

/-- Pop the entry with the least distance from the fringe, ties resolved in
favour of the earliest-pushed entry: the behaviour of the heap of
`networkx._dijkstra_multisource`, whose heap items carry a strictly
increasing insertion counter as tie-break and whose pending list is kept
here in push order. -/
def popMin : List (WithTop ℚ × Coord) → Option ((WithTop ℚ × Coord) × List (WithTop ℚ × Coord))
  | [] => none
  | x :: xs =>
      match popMin xs with
      | none => some (x, [])
      | some (m, rest) => if m.1 < x.1 then some (m, x :: rest) else some (x, xs)

/-- One relaxation sweep of `networkx._dijkstra_multisource` over the
out-edges of the just-finalized node `v` at distance `d`: for each successor
`u` not yet finalized, if the candidate distance improves on `seen[u]` (or
`u` is unseen), record it, append `u` to the fringe, and extend `paths[u]`
to `paths[v] + [u]`.  Association lists are updated by prepending, so a
lookup sees the newest binding, like a Python dict overwrite.  (On a
finalized `u`, networkx can only raise its "contradictory paths" error for
negative weights, in which case `find_route` returns nothing; the model
skips instead, which agrees with the source whenever a result is
returned.) -/
def relax (dist seen : List (Coord × WithTop ℚ)) (paths : List (Coord × List Coord))
    (fringe : List (WithTop ℚ × Coord)) (v : Coord) (d : WithTop ℚ) :
    List (Coord × Coord × WithTop ℚ) →
      List (Coord × WithTop ℚ) × List (Coord × List Coord) × List (WithTop ℚ × Coord)
  | [] => (seen, paths, fringe)
  | e :: es =>
      let u := e.2.1
      let w := e.2.2
      let vu := d + w
      if ((dist.find? (fun p => p.1 = u)).map (·.2)).isSome then
        relax dist seen paths fringe v d es
      else
        let better :=
          match (seen.find? (fun p => p.1 = u)).map (·.2) with
          | none => true
          | some su => decide (vu < su)
        if better then
          let paths' :=
            match (paths.find? (fun p => p.1 = v)).map (·.2) with
            | none => paths
            | some pv => (u, pv ++ [u]) :: paths
          relax dist ((u, vu) :: seen) paths' (fringe ++ [(vu, u)]) v d es
        else
          relax dist seen paths fringe v d es

/-- The main loop of `networkx._dijkstra_multisource`, specialised to a
single source and target as `nx.shortest_path(G, source, target,
weight="weight")` uses it: pop the nearest fringe entry, skip it if already
finalized, finalize it, stop with its recorded path once the target is
finalized, otherwise relax its out-edges.  An exhausted fringe is
`NetworkXNoPath`.  The fuel bounds the number of pops; `find_route` supplies
more fuel than the algorithm can ever push. -/
def dijkstraLoop (g : Graph) (target : Coord) :
    ℕ → List (Coord × WithTop ℚ) → List (Coord × WithTop ℚ) →
      List (Coord × List Coord) → List (WithTop ℚ × Coord) → Option (List Coord)
  | 0, _, _, _, _ => none
  | _ + 1, _, _, _, [] => none
  | fuel + 1, dist, seen, paths, fr@(_ :: _) =>
      match popMin fr with
      | none => none
      | some ((d, v), fringe') =>
          if ((dist.find? (fun p => p.1 = v)).map (·.2)).isSome then
            dijkstraLoop g target fuel dist seen paths fringe'
          else
            let dist' := (v, d) :: dist
            if v = target then (paths.find? (fun p => p.1 = v)).map (·.2)
            else
              let succs := g.edges.filter (fun e => e.1 = v)
              let st := relax dist' seen paths fringe' v d succs
              dijkstraLoop g target fuel dist' st.1 st.2.1 st.2.2

/-- `nx.shortest_path(G, source, target, weight="weight")` (Dijkstra):
distance map empty, `seen = {source: 0}`, `paths = {source: [source]}`,
fringe holding the source at distance `0`. -/
def dijkstra_path (g : Graph) (source target : Coord) : Option (List Coord) :=
  dijkstraLoop g target (g.edges.length + g.nodes.length + 2)
    [] [(source, 0)] [(source, [source])] [(0, source)]

/-- `find_route` of `src/logic/pathfinding.py`: build the graph, return
`(None, inf)` when either endpoint is not a node, otherwise run Dijkstra
and price the returned path with `nx.path_weight`; `NetworkXNoPath` (the
loop exhausting its fringe) is also `(None, inf)`. -/
def find_route (start end_ : Coord) (data : AbyssData) :
    Option (List Coord) × WithTop ℚ :=
  let G := build_graph data
  if start ∈ G.nodes ∧ end_ ∈ G.nodes then
    match dijkstra_path G start end_ with
    | none => (none, ⊤)
    | some path => (some path, path_weight G path)
  else (none, ⊤)

end Pathfinding

/-- Every consecutive pair of `p` is joined by a stored edge of `g` — the
shape of path `nx.path_weight` can price from stored weights. -/
def EdgeChain (g : Pathfinding.Graph) (p : List Coord) : Prop :=
  List.Chain' (fun a b => (g.weight a b).isSome) p

/-- Invariant of the `paths` dictionary inside the Dijkstra loop: every
recorded path is a nonempty edge-chain that starts at the source and ends
at its key. -/
def PathsInv (g : Pathfinding.Graph) (source : Coord)
    (paths : List (Coord × List Coord)) : Prop :=
  ∀ v p, (v, p) ∈ paths →
    p ≠ [] ∧ p.head? = some source ∧ p.getLast? = some v ∧ EdgeChain g p

/-! ## Concrete example datasets used by witnesses and counterexamples -/

/-- A two-cell grid `(0,0) — (0,1)` with one hazard of severity `1` at
`(0,1)` and no other layer records.  Under it the safe_route score of
`(0,1)` is `0.55` while its mining score is `-0.1925`, separating the
mode-dependent quantities the claims compare. -/
def demoData : AbyssData where
  cellRows := [((0, 0), ⟨0⟩), ((0, 1), ⟨0⟩)]
  hazardRows := [((0, 1), ⟨1⟩)]
  currentRows := []
  coralRows := []
  resourceRows := []
  lifeRows := []

/-- A grid whose only cells `(0,0)` and `(2,2)` are not adjacent, so its
route graph has two nodes and no edges: valid endpoints with no connecting
path. -/
def gapData : AbyssData where
  cellRows := [((0, 0), ⟨0⟩), ((2, 2), ⟨0⟩)]
  hazardRows := []
  currentRows := []
  coralRows := []
  resourceRows := []
  lifeRows := []

/-- A single-cell dataset: cell `(0,0)` at `depth_m = 500` with no sparse
layer records. -/
def deepCellData : AbyssData where
  cellRows := [((0, 0), ⟨500⟩)]
  hazardRows := []
  currentRows := []
  coralRows := []
  resourceRows := []
  lifeRows := []

/-! ## Helper lemmas -/

/-- ASCII lowering is idempotent: lowering lands outside `[A-Z]`. -/
theorem lowerChar_idem (c : Char) : lowerChar (lowerChar c) = lowerChar c := by
  unfold lowerChar
  by_cases h : 65 ≤ c.toNat ∧ c.toNat ≤ 90
  · rw [if_pos h]
    have hofn : (Char.ofNat (c.toNat + 32)).toNat = c.toNat + 32 := by
      obtain ⟨h1, h2⟩ := h
      interval_cases hn : c.toNat <;> decide
    rw [if_neg]
    rw [hofn]
    omega
  · rw [if_neg h, if_neg h]

/-- `pyLower` is idempotent, so `combined_score`'s dispatch cannot tell a
mode string from its lowered form. -/
theorem pyLower_idem (s : String) : pyLower (pyLower s) = pyLower s := by
  unfold pyLower
  have h : lowerChar ∘ lowerChar = lowerChar := funext lowerChar_idem
  simp [List.map_map, h]

/-- Dispatch of `combined_score` at mode `"mining"`. -/
theorem combined_score_mining (d e r : ℚ) :
    Scoring.combined_score d e r "mining" = r * 1.0 - 0.35 * d - 0.55 * e := rfl

/-- Dispatch of `combined_score` at mode `"balanced"` (the default arm). -/
theorem combined_score_balanced (d e r : ℚ) :
    Scoring.combined_score d e r "balanced" = r - 0.25 * d - 0.35 * e := rfl

/-- Dispatch of `combined_score` at mode `"safe_route"`. -/
theorem combined_score_safe_route (d e r : ℚ) :
    Scoring.combined_score d e r "safe_route" = d * 1.0 + 0.25 * e := rfl

/-! ## Claim theorems -/

/-- **C9** — for every coordinate without a Cell record and every mode,
`score_cell` returns `+infinity` (`⊤`), as an ordinary value of its result
type rather than an exception (the embedded function's codomain has no
error channel, matching the source, which `return`s `float("inf")`). -/
theorem score_cell_missing_cell_infinite (data : AbyssData) (row col : ℤ) (mode : String)
    (h : data.get_cell row col = none) :
    Scoring.score_cell data row col mode = ⊤ := by
  unfold Scoring.score_cell
  rw [h]

/-- Witness for C9: the empty dataset has no Cell record at `(0, 0)`. -/
theorem score_cell_missing_cell_infinite_witness :
    (⟨[], [], [], [], [], []⟩ : AbyssData).get_cell 0 0 = none ∧
      Scoring.score_cell ⟨[], [], [], [], [], []⟩ 0 0 "mining" = ⊤ :=
  ⟨rfl, score_cell_missing_cell_infinite ⟨[], [], [], [], [], []⟩ 0 0 "mining" rfl⟩

/-- **C10** — `combined_score`'s mode matching is case-insensitive: the
score at any mode string equals the score at its lowercase form, and the
all-caps `"MINING"` in particular selects the mining formula, not the
balanced fallback. -/
theorem combined_score_case_insensitive :
    (∀ (danger eco resource : ℚ) (mode : String),
        Scoring.combined_score danger eco resource mode =
          Scoring.combined_score danger eco resource (pyLower mode)) ∧
      ∀ danger eco resource : ℚ,
        Scoring.combined_score danger eco resource "MINING" =
          resource * 1.0 - 0.35 * danger - 0.55 * eco := by
  constructor
  · intro danger eco resource mode
    unfold Scoring.combined_score
    rw [pyLower_idem]
  · intro danger eco resource
    rfl

/-- **C7** — with eco and resource fixed, `combined_score` is strictly
decreasing in danger for the mining and balanced modes and strictly
increasing in danger for the safe_route mode. -/
theorem combined_score_danger_monotone (danger1 danger2 eco resource : ℚ)
    (h : danger1 < danger2) :
    Scoring.combined_score danger2 eco resource "mining" <
        Scoring.combined_score danger1 eco resource "mining" ∧
      Scoring.combined_score danger2 eco resource "balanced" <
        Scoring.combined_score danger1 eco resource "balanced" ∧
      Scoring.combined_score danger1 eco resource "safe_route" <
        Scoring.combined_score danger2 eco resource "safe_route" := by
  rw [combined_score_mining, combined_score_mining, combined_score_balanced,
    combined_score_balanced, combined_score_safe_route, combined_score_safe_route]
  refine ⟨by linarith, by linarith, by linarith⟩

/-- Witness for C7 at `danger1 = 0 < 1 = danger2`, `eco = 2`,
`resource = 3`. -/
theorem combined_score_danger_monotone_witness :
    (0 : ℚ) < 1 ∧
      (Scoring.combined_score 1 2 3 "mining" < Scoring.combined_score 0 2 3 "mining" ∧
        Scoring.combined_score 1 2 3 "balanced" < Scoring.combined_score 0 2 3 "balanced" ∧
        Scoring.combined_score 0 2 3 "safe_route" < Scoring.combined_score 1 2 3 "safe_route") :=
  ⟨by norm_num, combined_score_danger_monotone 0 1 2 3 (by norm_num)⟩

/-- **C6, counterexample** — on the claimed input the exact value of
`dangerScore` is `81/1400 ≈ 0.0579`, which differs from the claimed
`≈ 0.0554` by more than `10⁻³`, so the claim's numeral is wrong at its own
displayed precision. -/
theorem danger_score_scenario_value_not_0554 :
    Scoring.danger_score ⟨500⟩ [] [⟨0.5, 0.9⟩] = 81 / 1400 ∧
      |(81 / 1400 : ℚ) - 0.0554| > 1 / 1000 := by
  constructor
  · unfold Scoring.danger_score
    norm_num [min_def]
  · norm_num [abs]

/-- **C6, amended** — the input cell with `depth_m = 500`, no hazards, one
current record with `speed = 0.5`, `stability = 0.9`, and no coral,
resource or life records scores `dangerScore = 0.25·(500/7000) + 0 +
0.15·0.1 + 0.25·0.1 ≈ 0.0579` (not `0.0554`), `resourceScore = 0` and
`ecoImpactScore = 0`. -/
theorem danger_score_scenario_amended :
    Scoring.danger_score ⟨500⟩ [] [⟨0.5, 0.9⟩] =
        0.25 * (500 / 7000) + 0 + 0.15 * 0.1 + 0.25 * 0.1 ∧
      |Scoring.danger_score ⟨500⟩ [] [⟨0.5, 0.9⟩] - 0.0579| < 1 / 10000 ∧
      Scoring.resource_score [] = 0 ∧
      Scoring.eco_impact_score [] [] [] = 0 := by
  have hval : Scoring.danger_score ⟨500⟩ [] [⟨0.5, 0.9⟩] = 81 / 1400 := by
    unfold Scoring.danger_score
    norm_num [min_def]
  refine ⟨by rw [hval]; norm_num, by rw [hval]; norm_num [abs],
    by norm_num [Scoring.resource_score], by norm_num [Scoring.eco_impact_score]⟩

/-! ## Structure of `build_graph` edges -/

/-- Membership in the edge accumulator of `build_graph`: every edge comes
from some node's neighbour sweep. -/
theorem mem_foldr_append {α β : Type} (f : α → List β) (l : List α) (x : β)
    (h : x ∈ l.foldr (fun a acc => f a ++ acc) []) : ∃ a ∈ l, x ∈ f a := by
  induction l with
  | nil => simp at h
  | cons a t ih =>
      rcases List.mem_append.1 h with h' | h'
      · exact ⟨a, List.mem_cons_self a t, h'⟩
      · rcases ih h' with ⟨b, hb, hx⟩
        exact ⟨b, List.mem_cons_of_mem a hb, hx⟩

/-- `_route_cost` agrees with `1.0 + score_cell(·, "safe_route")` on every
coordinate: for a missing cell both sides are `⊤` (`score_cell` returns `⊤`
and adding `1.0` keeps it), otherwise both are the same finite sum. -/
theorem route_cost_eq_one_add_score (v : Coord) (data : AbyssData) :
    Pathfinding.route_cost v data =
      ((1.0 : ℚ) : WithTop ℚ) + Scoring.score_cell data v.1 v.2 "safe_route" := by
  unfold Pathfinding.route_cost Scoring.score_cell
  cases h : data.get_cell v.1 v.2 with
  | none => simp
  | some cell => simp

/-- Every edge of `build_graph` carries exactly `_route_cost` of its
destination. -/
theorem build_graph_edge_is_route_cost (data : AbyssData) (e : Coord × Coord × WithTop ℚ)
    (h : e ∈ (Pathfinding.build_graph data).edges) :
    e.2.2 = Pathfinding.route_cost e.2.1 data := by
  unfold Pathfinding.build_graph at h
  rcases mem_foldr_append _ _ _ h with ⟨coord, _, hx⟩
  rcases List.mem_map.1 hx with ⟨nb, _, rfl⟩
  rfl

/-- **C2, amended** — every edge of the route graph into a neighbour `N`
has weight `1.0 + scoreCell(dataset, N, "safe_route")`: the mode is the
hard-coded literal of `_route_cost`, so edge costs do not vary with the
query's mode and the graph carries no mode parameter at all. -/
theorem build_graph_edge_weight_safe_route (data : AbyssData) (e : Coord × Coord × WithTop ℚ)
    (h : e ∈ (Pathfinding.build_graph data).edges) :
    e.2.2 = ((1.0 : ℚ) : WithTop ℚ) + Scoring.score_cell data e.2.1.1 e.2.1.2 "safe_route" := by
  rw [build_graph_edge_is_route_cost data e h, route_cost_eq_one_add_score]

/-! ## Concrete evaluation of `demoData` -/

/-- `demoData` has a Cell record at `(0,0)`. -/
theorem demoData_get_cell_00 : demoData.get_cell 0 0 = some ⟨0⟩ := by
  simp +decide [AbyssData.get_cell, demoData, List.find?]

/-- `demoData` has a Cell record at `(0,1)`. -/
theorem demoData_get_cell_01 : demoData.get_cell 0 1 = some ⟨0⟩ := by
  simp +decide [AbyssData.get_cell, demoData, List.find?]

/-- safe_route score of the hazard-free cell `(0,0)` of `demoData`. -/
theorem demoData_score_safe_00 :
    Scoring.score_cell demoData 0 0 "safe_route" = ((0 : ℚ) : WithTop ℚ) := by
  simp +decide [Scoring.score_cell, AbyssData.get_cell, AbyssData.get_hazards,
    AbyssData.get_currents, AbyssData.get_corals, AbyssData.get_resources,
    AbyssData.get_life, demoData, List.find?, List.filter,
    Scoring.danger_score, Scoring.resource_score, Scoring.eco_impact_score,
    combined_score_safe_route]
  norm_num [min_def]

/-- safe_route score of the severity-1 hazard cell `(0,1)` of `demoData`. -/
theorem demoData_score_safe_01 :
    Scoring.score_cell demoData 0 1 "safe_route" = ((0.55 : ℚ) : WithTop ℚ) := by
  simp +decide [Scoring.score_cell, AbyssData.get_cell, AbyssData.get_hazards,
    AbyssData.get_currents, AbyssData.get_corals, AbyssData.get_resources,
    AbyssData.get_life, demoData, List.find?, List.filter,
    Scoring.danger_score, Scoring.resource_score, Scoring.eco_impact_score,
    combined_score_safe_route]
  norm_num [min_def]

/-- mining score of the severity-1 hazard cell `(0,1)` of `demoData`. -/
theorem demoData_score_mining_01 :
    Scoring.score_cell demoData 0 1 "mining" = ((-0.1925 : ℚ) : WithTop ℚ) := by
  simp +decide [Scoring.score_cell, AbyssData.get_cell, AbyssData.get_hazards,
    AbyssData.get_currents, AbyssData.get_corals, AbyssData.get_resources,
    AbyssData.get_life, demoData, List.find?, List.filter,
    Scoring.danger_score, Scoring.resource_score, Scoring.eco_impact_score,
    combined_score_mining]
  norm_num [min_def, ← WithTop.coe_mul]

/-- Stepping into `(0,1)` under `demoData` costs `1 + 0.55`. -/
theorem demoData_route_cost_01 :
    Pathfinding.route_cost (0, 1) demoData = ((1.55 : ℚ) : WithTop ℚ) := by
  unfold Pathfinding.route_cost
  simp only [demoData_get_cell_01, demoData_score_safe_01]
  rw [← WithTop.coe_add]
  norm_num

/-- Stepping into `(0,0)` under `demoData` costs `1`. -/
theorem demoData_route_cost_00 :
    Pathfinding.route_cost (0, 0) demoData = ((1 : ℚ) : WithTop ℚ) := by
  unfold Pathfinding.route_cost
  simp only [demoData_get_cell_00, demoData_score_safe_00]
  rw [← WithTop.coe_add]
  norm_num

/-- The route graph of `demoData`: two nodes, the two directed edges
between them, weighted by the cost of the cell entered. -/
theorem demoData_graph :
    Pathfinding.build_graph demoData =
      ⟨[(0, 0), (0, 1)],
       [((0, 0), (0, 1), ((1.55 : ℚ) : WithTop ℚ)),
        ((0, 1), (0, 0), ((1 : ℚ) : WithTop ℚ))]⟩ := by
  have e2 : Pathfinding.route_cost 0 demoData = 1 := demoData_route_cost_00
  have hrows : demoData.cellRows = [((0, 0), ⟨0⟩), ((0, 1), ⟨0⟩)] := rfl
  unfold Pathfinding.build_graph
  simp +decide [hrows, Pathfinding.maxRowBound, Pathfinding.maxColBound,
    Pathfinding.neighbours, Pathfinding.DIRS, List.filter,
    demoData_get_cell_00, demoData_get_cell_01, demoData_route_cost_01,
    demoData_route_cost_00, e2]

/-- Witness for C2 at the `demoData` edge `(0,0) → (0,1)`. -/
theorem build_graph_edge_weight_safe_route_witness :
    (((0, 0), (0, 1), ((1.55 : ℚ) : WithTop ℚ)) ∈ (Pathfinding.build_graph demoData).edges) ∧
      ((1.55 : ℚ) : WithTop ℚ) =
        ((1.0 : ℚ) : WithTop ℚ) + Scoring.score_cell demoData 0 1 "safe_route" := by
  have hmem : ((0, 0), (0, 1), ((1.55 : ℚ) : WithTop ℚ)) ∈ (Pathfinding.build_graph demoData).edges := by
    rw [demoData_graph]
    exact List.mem_cons_self _ _
  exact ⟨hmem, build_graph_edge_weight_safe_route demoData _ hmem⟩

/-- **C2, counterexample** — the `demoData` edge into `(0,1)` weighs
`1.55 = 1 + scoreCell((0,1), "safe_route")`, which is not
`1 + scoreCell((0,1), "mining")`: the edge cost does not track the query
mode `M = "mining"`. -/
theorem build_graph_edge_weight_not_mode_dependent :
    (Pathfinding.build_graph demoData).weight (0, 0) (0, 1) = some ((1.55 : ℚ) : WithTop ℚ) ∧
      ((1.55 : ℚ) : WithTop ℚ) ≠
        ((1.0 : ℚ) : WithTop ℚ) + Scoring.score_cell demoData 0 1 "mining" := by
  constructor
  · rw [demoData_graph]
    simp +decide [Pathfinding.Graph.weight, List.find?]
  · rw [demoData_score_mining_01, ← WithTop.coe_add]
    intro h
    rw [WithTop.coe_inj] at h
    norm_num at h

/-! ## `find_route` endpoint handling -/

/-- A coordinate is a node of the route graph exactly when it has a Cell
record. -/
theorem mem_build_graph_nodes (data : AbyssData) (v : Coord) :
    v ∈ (Pathfinding.build_graph data).nodes ↔ (data.get_cell v.1 v.2).isSome := by
  have hmap : ∀ o : Option (Coord × Cell), (o.map (fun x => x.2)).isSome = o.isSome := by
    intro o; cases o <;> rfl
  show v ∈ data.cellRows.map (fun x => x.1) ↔
    ((data.cellRows.find? (fun p => p.1 = (v.1, v.2))).map (fun x => x.2)).isSome
  rw [hmap, List.find?_isSome]
  simp [List.mem_map, Prod.mk.eta, eq_comm]

/-- **C3, amended** — when either endpoint lacks a Cell record (out-of-grid
coordinates in particular have none), `find_route` returns the ordinary
no-path value `(None, +infinity)`; it raises no `CellNotFound`-style error,
and the graph — with every edge scored — is still built by the call before
the endpoint test. -/
theorem find_route_missing_endpoint (start end_ : Coord) (data : AbyssData)
    (h : data.get_cell start.1 start.2 = none ∨ data.get_cell end_.1 end_.2 = none) :
    Pathfinding.find_route start end_ data = (none, ⊤) := by
  have hnot : ¬ (start ∈ (Pathfinding.build_graph data).nodes ∧
      end_ ∈ (Pathfinding.build_graph data).nodes) := by
    rintro ⟨h1, h2⟩
    rw [mem_build_graph_nodes] at h1 h2
    rcases h with h | h
    · rw [h] at h1; simp at h1
    · rw [h] at h2; simp at h2
  simp only [Pathfinding.find_route]
  rw [if_neg hnot]

/-- Witness for C3 at `(5,5)`, which has no Cell record in `gapData`. -/
theorem find_route_missing_endpoint_witness :
    gapData.get_cell 5 5 = none ∧
      Pathfinding.find_route (5, 5) (0, 0) gapData = (none, ⊤) :=
  ⟨by decide,
   find_route_missing_endpoint (5, 5) (0, 0) gapData (Or.inl (by decide))⟩

/-- The route graph of `gapData`: two isolated nodes, no edges. -/
theorem gapData_graph : Pathfinding.build_graph gapData = ⟨[(0, 0), (2, 2)], []⟩ := by
  simp +decide [Pathfinding.build_graph, gapData, Pathfinding.maxRowBound,
    Pathfinding.maxColBound, Pathfinding.neighbours, Pathfinding.DIRS,
    List.filter, AbyssData.get_cell, List.find?]

/-- **C3, counterexample** — `find_route` between two coordinates without
Cell records returns the plain value `(None, inf)`, bit-identical to the
result for two valid but disconnected endpoints: no `CellNotFound` error is
raised at the boundary, so the missing-record case is not distinguished
from `RouteNotFound`. -/
theorem find_route_no_cell_not_found_error :
    Pathfinding.find_route (5, 5) (6, 6) gapData = (none, ⊤) ∧
      Pathfinding.find_route (0, 0) (2, 2) gapData = (none, ⊤) ∧
      gapData.get_cell 5 5 = none ∧ gapData.get_cell 6 6 = none ∧
      (gapData.get_cell 0 0).isSome ∧ (gapData.get_cell 2 2).isSome := by
  refine ⟨?_, ?_, by decide, by decide, by decide, by decide⟩
  · simp only [Pathfinding.find_route, gapData_graph]
    rw [if_neg (by decide)]
  · simp only [Pathfinding.find_route, Pathfinding.dijkstra_path, gapData_graph]
    rw [if_pos (by decide)]
    simp +decide [Pathfinding.dijkstraLoop, Pathfinding.popMin, Pathfinding.relax,
      List.find?, List.filter]

/-- **C8** — for every node of the route graph, `find_route` from the node
to itself returns the one-element path holding only that coordinate with
total cost `0.0`: the first fringe entry popped is the source at distance
`0`, it equals the target, and its recorded path `[source]` traverses no
edge, so `path_weight` prices it at `0`. -/
theorem find_route_self (data : AbyssData) (s : Coord)
    (h : s ∈ (Pathfinding.build_graph data).nodes) :
    Pathfinding.find_route s s data = (some [s], 0) := by
  have key : ∀ fuel : ℕ, Pathfinding.dijkstraLoop (Pathfinding.build_graph data) s (fuel + 1)
      [] [(s, 0)] [(s, [s])] [(0, s)] = some [s] := by
    intro fuel
    simp [Pathfinding.dijkstraLoop, Pathfinding.popMin, List.find?]
  have hD : Pathfinding.dijkstra_path (Pathfinding.build_graph data) s s = some [s] := by
    unfold Pathfinding.dijkstra_path
    exact key ((Pathfinding.build_graph data).edges.length +
      (Pathfinding.build_graph data).nodes.length + 1)
  simp only [Pathfinding.find_route]
  rw [if_pos ⟨h, h⟩, hD]
  rfl

/-- Witness for C8 at node `(0,0)` of `demoData`. -/
theorem find_route_self_witness :
    ((0, 0) : Coord) ∈ (Pathfinding.build_graph demoData).nodes ∧
      Pathfinding.find_route (0, 0) (0, 0) demoData = (some [(0, 0)], 0) := by
  have hmem : ((0, 0) : Coord) ∈ (Pathfinding.build_graph demoData).nodes := by
    rw [demoData_graph]
    exact List.mem_cons_self _ _
  exact ⟨hmem, find_route_self demoData (0, 0) hmem⟩

/-! ## Soundness of the Dijkstra `paths` dictionary -/

/-- A stored weight of `build_graph` is the `_route_cost` of the edge's
destination. -/
theorem weight_some_route_cost (data : AbyssData) (u v : Coord) (w : WithTop ℚ)
    (h : (Pathfinding.build_graph data).weight u v = some w) :
    w = Pathfinding.route_cost v data := by
  unfold Pathfinding.Graph.weight at h
  rcases Option.map_eq_some'.1 h with ⟨e, hf, hw⟩
  have hmem := List.mem_of_find?_eq_some hf
  have hpred := List.find?_some hf
  simp only [decide_eq_true_eq] at hpred
  rw [← hw, build_graph_edge_is_route_cost data e hmem, hpred.2]

/-- Extending a recorded path across an existing edge preserves the
`paths` invariant. -/
theorem paths_inv_extend (g : Pathfinding.Graph) (source : Coord)
    (paths : List (Coord × List Coord)) (hinv : PathsInv g source paths)
    (v u : Coord) (pv : List Coord)
    (hpv : (paths.find? (fun p => p.1 = v)).map (fun x => x.2) = some pv)
    (hw : (g.weight v u).isSome) :
    PathsInv g source ((u, pv ++ [u]) :: paths) := by
  rcases Option.map_eq_some'.1 hpv with ⟨q, hf, hq2⟩
  have hqmem := List.mem_of_find?_eq_some hf
  have hq1 : q.1 = v := by
    have hqb := List.find?_some hf
    simpa only [decide_eq_true_eq] using hqb
  have hprops : pv ≠ [] ∧ pv.head? = some source ∧ pv.getLast? = some v ∧ EdgeChain g pv := by
    have : (v, pv) ∈ paths := by
      have : q = (v, pv) := by
        rw [← hq1, ← hq2]
      rwa [this] at hqmem
    exact hinv v pv this
  intro v' p' hmem
  rcases List.mem_cons.1 hmem with heq | hmem'
  · cases heq
    refine ⟨by simp, ?_, by rw [List.getLast?_concat], ?_⟩
    · rcases List.exists_cons_of_ne_nil hprops.1 with ⟨a, t, rfl⟩
      simpa using hprops.2.1
    · unfold EdgeChain
      rw [List.chain'_append]
      refine ⟨hprops.2.2.2, List.chain'_singleton u, ?_⟩
      intro x hx y hy
      rw [hprops.2.2.1] at hx
      simp at hx hy
      rw [← hx, ← hy]
      exact hw
  · exact hinv v' p' hmem'

/-- One relaxation sweep preserves the `paths` invariant, provided `g` has
an edge from `v` into the destination of every processed out-edge. -/
theorem relax_paths_inv (g : Pathfinding.Graph) (source v : Coord) (d : WithTop ℚ)
    (dist : List (Coord × WithTop ℚ)) :
    ∀ (es : List (Coord × Coord × WithTop ℚ)) (seen : List (Coord × WithTop ℚ))
      (paths : List (Coord × List Coord)) (fringe : List (WithTop ℚ × Coord)),
      PathsInv g source paths → (∀ e ∈ es, (g.weight v e.2.1).isSome) →
      PathsInv g source (Pathfinding.relax dist seen paths fringe v d es).2.1 := by
  intro es
  induction es with
  | nil => intro seen paths fringe hinv _; exact hinv
  | cons e es ih =>
      intro seen paths fringe hinv hes
      have he := hes e (List.mem_cons_self e es)
      have hes' : ∀ e' ∈ es, (g.weight v e'.2.1).isSome :=
        fun e' he' => hes e' (List.mem_cons_of_mem _ he')
      rw [Pathfinding.relax]
      dsimp only
      split
      · exact ih seen paths fringe hinv hes'
      · split
        · split
          · exact ih _ _ _ hinv hes'
          · rename_i pv hpv
            exact ih _ _ _ (paths_inv_extend g source paths hinv v e.2.1 pv hpv he) hes'
        · exact ih seen paths fringe hinv hes'

/-- A stored edge makes `Graph.weight` defined. -/
theorem weight_isSome_iff (g : Pathfinding.Graph) (u v : Coord) :
    (g.weight u v).isSome ↔ ∃ e ∈ g.edges, e.1 = u ∧ e.2.1 = v := by
  have hmap : ∀ o : Option (Coord × Coord × WithTop ℚ),
      (o.map (fun x => x.2.2)).isSome = o.isSome := by
    intro o; cases o <;> rfl
  unfold Pathfinding.Graph.weight
  rw [hmap, List.find?_isSome]
  simp

/-- Any path the Dijkstra loop returns is a nonempty edge-chain from the
source to the target. -/
theorem dijkstraLoop_sound (g : Pathfinding.Graph) (source target : Coord) :
    ∀ (fuel : ℕ) (dist seen : List (Coord × WithTop ℚ)) (paths : List (Coord × List Coord))
      (fringe : List (WithTop ℚ × Coord)) (p : List Coord),
      PathsInv g source paths →
      Pathfinding.dijkstraLoop g target fuel dist seen paths fringe = some p →
      p ≠ [] ∧ p.head? = some source ∧ p.getLast? = some target ∧ EdgeChain g p := by
  intro fuel
  induction fuel with
  | zero =>
      intro dist seen paths fringe p _ h
      rw [Pathfinding.dijkstraLoop] at h
      exact absurd h (by simp)
  | succ fuel ih =>
      intro dist seen paths fringe p hinv h
      cases fringe with
      | nil =>
          rw [Pathfinding.dijkstraLoop] at h
          exact absurd h (by simp)
      | cons a fr =>
          rw [Pathfinding.dijkstraLoop] at h
          cases hpop : Pathfinding.popMin (a :: fr) with
          | none => rw [hpop] at h; exact absurd h (by simp)
          | some x =>
              obtain ⟨⟨dmin, v⟩, fringe'⟩ := x
              rw [hpop] at h
              dsimp only at h
              by_cases h1 : ((dist.find? (fun q => q.1 = v)).map (fun q => q.2)).isSome = true
              · rw [if_pos h1] at h
                exact ih dist seen paths fringe' p hinv h
              · rw [if_neg h1] at h
                by_cases h2 : v = target
                · rw [if_pos h2] at h
                  rcases Option.map_eq_some'.1 h with ⟨q, hf, hq2⟩
                  have hq1 : q.1 = v := by
                    have := List.find?_some hf
                    simpa only [decide_eq_true_eq] using this
                  have hqmem := List.mem_of_find?_eq_some hf
                  have hvp : (v, p) ∈ paths := by
                    have hq : q = (v, p) := by rw [← hq1, ← hq2]
                    rwa [hq] at hqmem
                  have hp := hinv v p hvp
                  exact ⟨hp.1, hp.2.1, by rw [hp.2.2.1, h2], hp.2.2.2⟩
                · rw [if_neg h2] at h
                  refine ih _ _ _ _ _ ?_ h
                  apply relax_paths_inv g source v dmin ((v, dmin) :: dist)
                    (g.edges.filter (fun e => e.1 = v)) seen paths fringe' hinv
                  intro e hemem
                  have hef := List.mem_filter.1 hemem
                  have he1 : e.1 = v := by simpa only [decide_eq_true_eq] using hef.2
                  rw [weight_isSome_iff]
                  exact ⟨e, hef.1, he1, rfl⟩

/-- Pricing an edge-chain with `path_weight` sums the `_route_cost` of
every node entered (all nodes after the first). -/
theorem path_weight_chain (data : AbyssData) :
    ∀ p : List Coord, EdgeChain (Pathfinding.build_graph data) p →
      Pathfinding.path_weight (Pathfinding.build_graph data) p =
        (p.tail.map (fun v => Pathfinding.route_cost v data)).sum := by
  intro p
  induction p with
  | nil => intro _; rfl
  | cons u rest ih =>
      cases rest with
      | nil => intro _; rfl
      | cons v rest' =>
          intro hchain
          unfold EdgeChain at hchain
          rw [List.chain'_cons] at hchain
          obtain ⟨hw, htail⟩ := hchain
          obtain ⟨w, hwv⟩ := Option.isSome_iff_exists.1 hw
          rw [Pathfinding.path_weight, hwv]
          have hwval := weight_some_route_cost data u v w hwv
          rw [Option.getD_some, hwval, ih htail]
          simp

/-- **C5, amended** — for every path returned by `find_route`, the
reported total cost equals the sum, over every node of the path after the
first, of `1.0 + scoreCell(node, "safe_route")`: the mode is the
hard-coded safe_route literal of `_route_cost`, not a caller-chosen `M`
(`find_route` accepts no mode argument). -/
theorem find_route_cost_consistency (data : AbyssData) (start end_ : Coord)
    (p : List Coord) (c : WithTop ℚ)
    (h : Pathfinding.find_route start end_ data = (some p, c)) :
    c = (p.tail.map (fun v =>
      ((1.0 : ℚ) : WithTop ℚ) + Scoring.score_cell data v.1 v.2 "safe_route")).sum := by
  simp only [Pathfinding.find_route] at h
  by_cases hmem : start ∈ (Pathfinding.build_graph data).nodes ∧
      end_ ∈ (Pathfinding.build_graph data).nodes
  · rw [if_pos hmem] at h
    cases hd : Pathfinding.dijkstra_path (Pathfinding.build_graph data) start end_ with
    | none => rw [hd] at h; exact absurd h (by simp)
    | some p' =>
        rw [hd] at h
        dsimp only at h
        injection h with h1 h2
        injection h1 with h1
        subst h1
        have hinv : PathsInv (Pathfinding.build_graph data) start [(start, [start])] := by
          intro v q hq
          have hvq : (v, q) = (start, [start]) := List.mem_singleton.1 hq
          cases hvq
          exact ⟨by simp, rfl, rfl, List.chain'_singleton start⟩
        have hloop : Pathfinding.dijkstraLoop (Pathfinding.build_graph data) end_
            ((Pathfinding.build_graph data).edges.length +
              (Pathfinding.build_graph data).nodes.length + 2)
            [] [(start, 0)] [(start, [start])] [(0, start)] = some p' := by
          rw [← hd]; rfl
        have hsound := dijkstraLoop_sound (Pathfinding.build_graph data) start end_
          _ _ _ _ _ p' hinv hloop
        rw [← h2, path_weight_chain data p' hsound.2.2.2]
        simp only [route_cost_eq_one_add_score]
  · rw [if_neg hmem] at h
    exact absurd h (by simp)

/-- Dijkstra on `demoData` from `(0,0)` to `(0,1)`: the two-node path, at
total cost `1 + 0.55`. -/
theorem demoData_find_route :
    Pathfinding.find_route (0, 0) (0, 1) demoData =
      (some [(0, 0), (0, 1)], ((1.55 : ℚ) : WithTop ℚ)) := by
  unfold Pathfinding.find_route Pathfinding.dijkstra_path
  rw [demoData_graph]
  simp +decide [Pathfinding.dijkstraLoop, Pathfinding.popMin, Pathfinding.relax,
    List.find?, List.filter, Pathfinding.path_weight, Pathfinding.Graph.weight]

/-- Witness for C5 on the `demoData` route `(0,0) → (0,1)`. -/
theorem find_route_cost_consistency_witness :
    Pathfinding.find_route (0, 0) (0, 1) demoData =
        (some [(0, 0), (0, 1)], ((1.55 : ℚ) : WithTop ℚ)) ∧
      ((1.55 : ℚ) : WithTop ℚ) =
        (([(0, 0), (0, 1)] : List Coord).tail.map (fun v =>
          ((1.0 : ℚ) : WithTop ℚ) + Scoring.score_cell demoData v.1 v.2 "safe_route")).sum :=
  ⟨demoData_find_route,
   find_route_cost_consistency demoData (0, 0) (0, 1) [(0, 0), (0, 1)]
     ((1.55 : ℚ) : WithTop ℚ) demoData_find_route⟩

/-- **C5, counterexample** — the returned cost of the `demoData` route
`(0,0) → (0,1)` is `1.55 = 1 + scoreCell((0,1), "safe_route")`, which
differs from `Σ (1.0 + scoreCell(node, "mining"))` over the nodes after
the first: the claimed equality fails for the query mode `M = "mining"`. -/
theorem find_route_cost_not_mining_sum :
    Pathfinding.find_route (0, 0) (0, 1) demoData =
        (some [(0, 0), (0, 1)], ((1.55 : ℚ) : WithTop ℚ)) ∧
      ((1.55 : ℚ) : WithTop ℚ) ≠
        (([(0, 0), (0, 1)] : List Coord).tail.map (fun v =>
          ((1.0 : ℚ) : WithTop ℚ) + Scoring.score_cell demoData v.1 v.2 "mining")).sum := by
  refine ⟨demoData_find_route, ?_⟩
  rw [List.tail_cons, List.map_cons, List.map_nil, List.sum_cons, List.sum_nil]
  rw [show Scoring.score_cell demoData ((0, 1) : Coord).1 ((0, 1) : Coord).2 "mining" =
    ((-0.1925 : ℚ) : WithTop ℚ) from demoData_score_mining_01]
  rw [← WithTop.coe_add, add_zero]
  intro hcontra
  rw [WithTop.coe_inj] at hcontra
  norm_num at hcontra

/-- **C4** — the per-cell score of the `RECOMMEND_ZONES` path is **not**
the §4.1 `combinedScore` pipeline: on a bare cell of depth `500` the
`handle_query` loop (placeholder formulas, `rs - 1.2·es - 0.5·ds`) yields
`-1/240`, while `scoreCell(·, "mining")` of the ScoreEngine yields
`-1/160`.  The spec (and the module's own "placeholders … upgrade later"
comment) intend the §4.1 pipeline, so the ranking code, not the claim, is
at fault. -/
theorem recommend_score_not_engine_combined :
    Core.recommend_cell_score ((0, 0), ⟨500⟩) deepCellData = -1 / 240 ∧
      Scoring.score_cell deepCellData 0 0 "mining" = ((-1 / 160 : ℚ) : WithTop ℚ) ∧
      ((-1 / 240 : ℚ) : WithTop ℚ) ≠ ((-1 / 160 : ℚ) : WithTop ℚ) := by
  refine ⟨?_, ?_, ?_⟩
  · norm_num [Core.recommend_cell_score, Core.resource_score, Core.eco_impact_score,
      Core.danger_score, AbyssData.get_hazards, AbyssData.get_currents,
      AbyssData.get_corals, AbyssData.get_resources, deepCellData, List.filter]
  · simp +decide [Scoring.score_cell, AbyssData.get_cell, AbyssData.get_hazards,
      AbyssData.get_currents, AbyssData.get_corals, AbyssData.get_resources,
      AbyssData.get_life, deepCellData, List.find?, List.filter,
      Scoring.danger_score, Scoring.resource_score, Scoring.eco_impact_score,
      combined_score_mining]
    norm_num [min_def, ← WithTop.coe_mul]
  · intro h
    rw [WithTop.coe_inj] at h
    norm_num at h

/-! ## Ranking: facts about `argsort` and sorted tails -/

/-- Reading a list back through all its indices reproduces the list. -/
theorem map_getD_range (l : List ℚ) :
    (List.range l.length).map (fun i => l.getD i 0) = l := by
  induction l with
  | nil => rfl
  | cons a t ih =>
      rw [List.length_cons, List.range_succ_eq_map, List.map_cons, List.map_map]
      have hcomp : ((fun i => (a :: t).getD i 0) ∘ Nat.succ) = fun i => t.getD i 0 := by
        funext i
        simp [List.getD_cons_succ]
      rw [hcomp, ih]
      simp [List.getD_cons_zero]

/-- `argsort` permutes the index range. -/
theorem argsort_perm (l : List ℚ) : (Core.argsort l).Perm (List.range l.length) :=
  List.perm_insertionSort _ _

/-- `argsort` is ascending in its key order. -/
theorem argsort_sorted (l : List ℚ) : List.Sorted (Core.argsortLE l) (Core.argsort l) :=
  List.sorted_insertionSort _ _

/-- Reading the scores along the ascending `argsort` yields exactly the
ascending sort of the score list. -/
theorem argsort_map_getD (l : List ℚ) :
    (Core.argsort l).map (fun i => l.getD i 0) =
      List.insertionSort (fun a b : ℚ => a ≤ b) l := by
  have hperm : ((Core.argsort l).map (fun i => l.getD i 0)).Perm l := by
    have h1 := (argsort_perm l).map (fun i => l.getD i 0)
    rwa [map_getD_range l] at h1
  have hsorted : List.Sorted (fun a b : ℚ => a ≤ b)
      ((Core.argsort l).map (fun i => l.getD i 0)) := by
    refine List.Pairwise.map _ ?_ (argsort_sorted l)
    intro i j hij
    rcases hij with h | ⟨h, _⟩
    · exact le_of_lt h
    · exact le_of_eq h
  have hperm2 : ((Core.argsort l).map (fun i => l.getD i 0)).Perm
      (List.insertionSort (fun a b : ℚ => a ≤ b) l) :=
    hperm.trans (List.perm_insertionSort _ l).symm
  exact List.eq_of_perm_of_sorted hperm2 hsorted (List.sorted_insertionSort _ l)

/-- Dropping fewer elements than the length keeps the last element. -/
theorem getLast?_drop_of_lt {α : Type} :
    ∀ (l : List α) (n : ℕ), n < l.length → (l.drop n).getLast? = l.getLast? := by
  intro l
  induction l with
  | nil => intro n h; simp at h
  | cons a t ih =>
      intro n h
      cases n with
      | zero => rfl
      | succ m =>
          rw [List.drop_succ_cons]
          have hm : m < t.length := by simpa using h
          rw [ih m hm]
          cases t with
          | nil => simp at hm
          | cons b t' => rw [List.getLast?_cons_cons]

/-- In an ascending list, every element is at most the last one. -/
theorem sorted_le_getLast :
    ∀ l : List ℚ, List.Sorted (fun a b : ℚ => a ≤ b) l →
      ∀ x ∈ l, ∀ y ∈ l.getLast?, x ≤ y := by
  intro l
  induction l with
  | nil => intro _ x hx; simp at hx
  | cons a t ih =>
      intro hs x hx y hy
      cases t with
      | nil =>
          simp at hx hy
          rw [hx, ← hy]
      | cons b t' =>
          rw [List.getLast?_cons_cons] at hy
          rcases List.mem_cons.1 hx with rfl | hx'
          · have hymem : y ∈ b :: t' := by
              rcases List.mem_getLast?_eq_getLast hy with ⟨hne, hy2⟩
              rw [hy2]
              exact List.getLast_mem hne
            exact List.rel_of_sorted_cons hs y hymem
          · exact ih hs.of_cons x hx' y hy

/-- **C1, amended** — for every dataset (the `RECOMMEND_ZONES` path has a
single, mode-independent scoring formula), the highlights list (i) has at
most `K = 5` entries, (ii) its scores are exactly the last `K` of the
ascending sort of all per-cell scores, **reversed** — i.e. reported in
descending-score order — and (iii) the *first* (not last) highlight carries
the maximum score of the grid; ties are resolved by the ascending `argsort`
with original enumeration order as tie-break. -/
theorem recommend_highlights_spec (data : AbyssData) :
    (Core.recommend_highlights data).length ≤ 5 ∧
      (Core.recommend_highlights data).map (fun h => h.2) =
        ((List.insertionSort (fun a b : ℚ => a ≤ b) (Core.recommend_scores data)).drop
          ((Core.recommend_scores data).length - 5)).reverse ∧
      ∀ s ∈ Core.recommend_scores data,
        ∀ y ∈ ((Core.recommend_highlights data).map (fun h => h.2)).head?, s ≤ y := by
  have hlen : (Core.argsort (Core.recommend_scores data)).length =
      (Core.recommend_scores data).length := by
    rw [(argsort_perm (Core.recommend_scores data)).length_eq, List.length_range]
  have hmap : (Core.recommend_highlights data).map (fun h => h.2) =
      ((List.insertionSort (fun a b : ℚ => a ≤ b) (Core.recommend_scores data)).drop
        ((Core.recommend_scores data).length - 5)).reverse := by
    unfold Core.recommend_highlights Core.recommend_top_idx
    rw [List.map_map]
    have hcomp : ((fun h : Coord × ℚ => h.2) ∘ (fun i =>
        ((data.cellRows.getD i ((0, 0), ⟨0⟩)).1, (Core.recommend_scores data).getD i 0))) =
        fun i => (Core.recommend_scores data).getD i 0 := rfl
    rw [hcomp]
    dsimp only
    rw [List.map_reverse, List.map_drop, argsort_map_getD, hlen]
  refine ⟨?_, hmap, ?_⟩
  · have : (Core.recommend_highlights data).length =
        ((Core.recommend_highlights data).map (fun h => h.2)).length := by
      rw [List.length_map]
    rw [this, hmap, List.length_reverse, List.length_drop]
    have hslen : (List.insertionSort (fun a b : ℚ => a ≤ b)
        (Core.recommend_scores data)).length = (Core.recommend_scores data).length :=
      (List.perm_insertionSort _ _).length_eq
    omega
  · intro s hs y hy
    rw [hmap, List.head?_reverse] at hy
    have hn : 0 < (Core.recommend_scores data).length := List.length_pos.2 (by
      intro hnil
      rw [hnil] at hs
      exact List.not_mem_nil s hs)
    have hslen : (List.insertionSort (fun a b : ℚ => a ≤ b)
        (Core.recommend_scores data)).length = (Core.recommend_scores data).length :=
      (List.perm_insertionSort _ _).length_eq
    rw [getLast?_drop_of_lt _ _ (by omega)] at hy
    have hsmem : s ∈ List.insertionSort (fun a b : ℚ => a ≤ b) (Core.recommend_scores data) :=
      (List.perm_insertionSort _ _).mem_iff.2 hs
    exact sorted_le_getLast _ (List.sorted_insertionSort _ _) s hsmem y hy

/-- The `RECOMMEND_ZONES` scores of `demoData`, in cell order: the clean
cell scores `0`, the hazard cell `-0.5 · 0.6 = -0.3`. -/
theorem demoData_recommend_scores :
    Core.recommend_scores demoData = [0, -0.3] := by
  norm_num [Core.recommend_scores, Core.recommend_cell_score, Core.resource_score,
    Core.eco_impact_score, Core.danger_score, AbyssData.get_hazards,
    AbyssData.get_currents, AbyssData.get_corals, AbyssData.get_resources,
    demoData, List.filter]

/-- The highlights of `demoData`: maximum score first, descending. -/
theorem demoData_recommend_highlights :
    Core.recommend_highlights demoData = [((0, 0), 0), ((0, 1), -0.3)] := by
  have hargsort : Core.argsort [0, -0.3] = [1, 0] := by
    norm_num [Core.argsort, List.insertionSort, List.orderedInsert, Core.argsortLE,
      List.getD_cons_zero, List.getD_cons_succ, List.length_cons]
  rw [Core.recommend_highlights, Core.recommend_top_idx, demoData_recommend_scores, hargsort]
  norm_num [demoData, List.getD_cons_zero, List.getD_cons_succ]

/-- **C1, counterexample** — on a two-cell grid whose scores are `[0, -0.3]`
the highlights come back `[((0,0), 0), ((0,1), -0.3)]`: the score sequence
is **descending**, not ascending, and the last highlight carries `-0.3`
while the grid maximum `0` sits first — `argsort[-5:]` is reversed
(`[::-1]`) before reporting, so the single highest-scoring coordinate is
the first highlight, not the last. -/
theorem recommend_highlights_not_ascending :
    Core.recommend_highlights demoData = [((0, 0), 0), ((0, 1), -0.3)] ∧
      ¬ List.Sorted (fun a b : ℚ => a ≤ b)
          ((Core.recommend_highlights demoData).map (fun h => h.2)) ∧
      ((Core.recommend_highlights demoData).map (fun h => h.2)).getLast? = some (-0.3) ∧
      (0 : ℚ) ∈ Core.recommend_scores demoData ∧ (-0.3 : ℚ) < 0 := by
  refine ⟨demoData_recommend_highlights, ?_, ?_, ?_, by norm_num⟩
  · rw [demoData_recommend_highlights]
    intro hsorted
    have := List.rel_of_sorted_cons hsorted (-0.3) (by simp)
    norm_num at this
  · rw [demoData_recommend_highlights]
    rfl
  · rw [demoData_recommend_scores]
    simp

/-- Witness for C1: on `demoData` the grid maximum `0` is a per-cell score
and equals the first highlight's score. -/
theorem recommend_highlights_spec_witness :
    ((0 : ℚ) ∈ Core.recommend_scores demoData ∧
      (0 : ℚ) ∈ ((Core.recommend_highlights demoData).map (fun h => h.2)).head?) ∧
      (0 : ℚ) ≤ (0 : ℚ) := by
  have hs : (0 : ℚ) ∈ Core.recommend_scores demoData := by
    rw [demoData_recommend_scores]
    simp
  have hh : (0 : ℚ) ∈ ((Core.recommend_highlights demoData).map (fun h => h.2)).head? := by
    rw [demoData_recommend_highlights]
    rfl
  exact ⟨⟨hs, hh⟩, (recommend_highlights_spec demoData).2.2 0 hs 0 hh⟩
